import Mathlib

/-!
Shallow embedding of the rslox bytecode compiler and stack VM
(src/value.rs, src/table.rs, src/object.rs, src/compiler.rs, src/vm.rs,
src/memory.rs), with theorems settling the frozen claims about it.

Modelling conventions:
* Heap pointers (`*mut Obj`, `*mut ObjString`, …) are modelled as `Nat`
  references; allocation hands out a fresh reference from a counter.
* `f64` payloads are abstracted as `Int`: none of the claims under test
  depends on floating-point arithmetic, only on the tag of the value.
* `Table` is `HashMap<*mut ObjString, Value>`.  Rust hashes and compares a
  raw-pointer key by its address (the `Hash`/`PartialEq` impls for `*mut T`),
  not by the pointee, so the map is keyed by the reference itself; it is
  modelled as a function from the key reference to `Option Value`.
* Loops are embedded either structurally (when they walk a list) or with
  explicit fuel (the GC trace loop).
-/

namespace RsLox

/-- Runtime values (src/value.rs, `enum Value`).  The `f64` payload of
`Number` is abstracted as `Int`. -/
inductive Value where
| nil : Value
| boolean (b : Bool) : Value
| number (n : Int) : Value
| obj (r : Nat) : Value
deriving DecidableEq, Repr

/-- A `Table` (src/table.rs) is `HashMap<*mut ObjString, Value>`; the key is
the raw pointer, so lookups are by reference. -/
def Table : Type := Nat → Option Value

/-- `Table::get` (src/table.rs:19-21). -/
def table_get (t : Table) (k : Nat) : Option Value := t k

/-- `Table::set` (src/table.rs:23-28): inserts or overwrites, returning
`true` exactly when the key was not present before. -/
def table_set (t : Table) (k : Nat) (v : Value) : Bool × Table :=
  ((t k).isNone, fun j => if j = k then some v else t j)

/-- `Table::remove` (src/table.rs:30-32). -/
def table_remove (t : Table) (k : Nat) : Table :=
  fun j => if j = k then none else t j

/-- `is_falsey` (src/vm.rs:157-163).  The wildcard arm of the source match
returns `true`, so every value other than `Boolean(true)` is classified
falsy. -/
def is_falsey : Value → Bool
| Value.nil => true
| Value.boolean b => !b
| _ => true

/-- `OpCode::Not` (src/vm.rs:439-442): pop the operand, push
`Boolean(is_falsey(operand))`. -/
def op_not (v : Value) : Value := Value.boolean (is_falsey v)

/-- C2.  The claim says the falseness test classifies exactly `Nil` and
`Bool(false)` as falsy, so the number `0` and strings are truthy.  The code
(src/vm.rs:161, the `_ => true` arm) classifies every non-boolean value as
falsy: `is_falsey (Number 0) = true` and `is_falsey (Obj r) = true`, and
`OP_NOT` on `Number 0` pushes `true`.  Spec section 9(c) records this as a
bug in the source; the claim is right and the code is wrong. -/
theorem C2_is_falsey_not_as_specified :
    is_falsey (Value.number 0) = true
  ∧ is_falsey (Value.obj 0) = true
  ∧ is_falsey Value.nil = true
  ∧ is_falsey (Value.boolean false) = true
  ∧ is_falsey (Value.boolean true) = false
  ∧ op_not (Value.number 0) = Value.boolean true := by
  exact ⟨rfl, rfl, rfl, rfl, rfl, rfl⟩

/-- The runtime error message `"Undefined variable 'X'."` (src/vm.rs:357). -/
def undefinedVariableMsg (s : String) : String :=
  "Undefined variable '" ++ s ++ "'."

/-- The runtime error message `"Undefined property 'X'."`
(src/vm.rs:637, src/vm.rs:720). -/
def undefinedPropertyMsg (s : String) : String :=
  "Undefined property '" ++ s ++ "'."

/-- The `OpCode::SetGlobal` arm (src/vm.rs:352-362): `set` the peeked value
under the name; when `set` reports the key was new, `remove` the transient
insert and raise `"Undefined variable 'X'."`.  Returns the error message (if
any) and the resulting globals table; `chars` is the name string the error
message interpolates. -/
def set_global (g : Table) (name : Nat) (chars : String) (v : Value) :
    Option String × Table :=
  let r := table_set g name v
  if r.1 then
    (some (undefinedVariableMsg chars), table_remove r.2 name)
  else
    (none, r.2)

/-- C7.  `SET_GLOBAL` on a name absent from the globals map raises
`"Undefined variable 'X'."` and leaves the globals map unchanged (the
transient insert is removed); on a present name it updates that binding to
the stack-top value, raises no error, and touches no other binding. -/
theorem C7_set_global_spec (g : Table) (name : Nat) (chars : String) (v : Value) :
    (table_get g name = none →
        (set_global g name chars v).1 = some (undefinedVariableMsg chars)
      ∧ (set_global g name chars v).2 = g)
  ∧ (∀ w, table_get g name = some w →
        (set_global g name chars v).1 = none
      ∧ table_get (set_global g name chars v).2 name = some v
      ∧ ∀ k, k ≠ name → table_get (set_global g name chars v).2 k = table_get g k) := by
  constructor
  · intro habs
    have hnew : (table_set g name v).1 = true := by
      simp [table_set, table_get] at habs ⊢
      simp [habs]
    constructor
    · simp [set_global, hnew]
    · simp [set_global, hnew]
      funext j
      simp only [table_remove, table_set]
      by_cases hj : j = name
      · subst hj
        simp [table_get] at habs
        simp [habs]
      · simp [hj]
  · intro w hw
    have hold : (table_set g name v).1 = false := by
      simp [table_set, table_get] at hw ⊢
      simp [hw]
    have hg : g name = some w := hw
    refine ⟨by simp [set_global, hold], ?_, ?_⟩
    · simp [set_global, hold, table_get, table_set, hg]
    · intro k hk
      simp [set_global, hold, table_get, table_set, hg, hk]

/-- A concrete globals table for the C7 witness: name 1 bound, name 5 absent. -/
def exGlobals : Table := fun k => if k = 1 then some (Value.number 3) else none

/-- Witness for C7 at a concrete table: the absent name 5 errors and leaves
the table unchanged; the present name 1 is updated without error. -/
theorem C7_set_global_witness :
    (table_get exGlobals 5 = none
      ∧ (set_global exGlobals 5 "x" Value.nil).1 = some (undefinedVariableMsg "x")
      ∧ (set_global exGlobals 5 "x" Value.nil).2 = exGlobals)
  ∧ (table_get exGlobals 1 = some (Value.number 3)
      ∧ (set_global exGlobals 1 "y" Value.nil).1 = none
      ∧ table_get (set_global exGlobals 1 "y" Value.nil).2 1 = some Value.nil) := by
  have h5 : table_get exGlobals 5 = none := rfl
  have h1 : table_get exGlobals 1 = some (Value.number 3) := rfl
  have a := (C7_set_global_spec exGlobals 5 "x" Value.nil).1 h5
  have b := (C7_set_global_spec exGlobals 1 "y" Value.nil).2 (Value.number 3) h1
  exact ⟨⟨h5, a.1, a.2⟩, ⟨h1, b.1, b.2.1⟩⟩

end RsLox

namespace RsLox.Intern

/-- The state `ObjString::take_string` acts on: the allocation counter, the
`chars` contents of every allocated `ObjString`, and the VM's `strings`
table.  The table's key type is `*mut ObjString`, so an entry is found only
under the very reference it was inserted with. -/
structure InternState where
  nextRef : Nat
  chars : Nat → Option String
  strings : Nat → Option RsLox.Value

/-- `ObjString::new` (src/object.rs:189-198): allocate a fresh `ObjString`
holding `s`. -/
def objStringNew (st : InternState) (s : String) : Nat × InternState :=
  (st.nextRef,
   { st with
     nextRef := st.nextRef + 1
     chars := fun r => if r = st.nextRef then some s else st.chars r })

/-- `Table::get_key` (src/table.rs:34-39) on the strings table.  The map is
`HashMap<*mut ObjString, Value>`: Rust hashes and compares the raw-pointer
key by address, so the probe finds a key exactly when that same reference is
in the map — never a different reference with equal contents. -/
def table_get_key (strings : Nat → Option RsLox.Value) (key : Nat) : Option Nat :=
  match strings key with
  | some _ => some key
  | none => none

/-- `ObjString::take_string` (src/object.rs:200-213): allocate, probe the
strings table with the new reference, intern on a miss.  Because the probe
compares addresses, the hit branch can only ever return the probe reference
itself. -/
def take_string (st : InternState) (s : String) : Nat × InternState :=
  let a := objStringNew st s
  match table_get_key a.2.strings a.1 with
  | some k =>
      (k, { a.2 with chars := fun r => if r = a.1 then none else a.2.chars r })
  | none =>
      (a.1,
       { a.2 with
         strings := fun r => if r = a.1 then some RsLox.Value.nil else a.2.strings r })

/-- The interning state right after `VM::new`: nothing allocated. -/
def initIntern : InternState := ⟨0, fun _ => none, fun _ => none⟩

/-- C3.  The claim says two `take_string` calls with equal bytes return the
same reference.  In the code the strings table is keyed by the raw
`*mut ObjString`, which `HashMap` hashes and compares by address, so
`get_key` never finds an equal-content string under a different address:
interning twice from the initial state with the same contents `"a"` returns
references 0 and 1 — two distinct live `ObjString`s with equal bytes.  The
dedup branch of `take_string` is clearly intended to intern by contents, so
the claim is right and the code is wrong. -/
theorem C3_take_string_not_canonical :
    (take_string initIntern "a").1 = 0
  ∧ (take_string (take_string initIntern "a").2 "a").1 = 1
  ∧ ¬ (take_string initIntern "a").1
        = (take_string (take_string initIntern "a").2 "a").1
  ∧ (take_string initIntern "a").2.chars 0 = some "a"
  ∧ (take_string (take_string initIntern "a").2 "a").2.chars 1 = some "a" := by
  refine ⟨rfl, rfl, ?_, rfl, rfl⟩
  intro h
  simp [take_string, objStringNew, table_get_key, initIntern] at h

end RsLox.Intern

namespace RsLox.Compile

/-- A compiler `Local` (src/compiler.rs): the declared name, its scope depth
(−1 while uninitialized) and whether a closure captured it. -/
structure Local where
  name : String
  depth : Int
  is_captured : Bool

/-- A `Chunk` as the emission target (src/chunk.rs): the code bytes and the
constant pool.  (The parallel line array does not matter to the claims.) -/
structure Chunk where
  code : List Nat
  constants : List RsLox.Value

/-- `Chunk::add_constant`: append to the pool, return its index. -/
def add_constant (c : Chunk) (v : RsLox.Value) : Nat × Chunk :=
  (c.constants.length, { c with constants := c.constants ++ [v] })

/-- `Compiler::make_constant` (src/compiler.rs:1215-1223): add the constant;
past index 255 report "Too many constants in one chunk." (an error flag, not
modelled) and return 0. -/
def make_constant (c : Chunk) (v : RsLox.Value) : Nat × Chunk :=
  let r := add_constant c v
  if r.1 > 255 then (0, r.2) else r

/-- `Compiler::identifier_constant` (src/compiler.rs:1211-1213): intern the
identifier lexeme (the fresh reference `nameRef` stands for the
`take_string` result) and add it to the constant pool. -/
def identifier_constant (c : Chunk) (nameRef : Nat) : Nat × Chunk :=
  make_constant c (RsLox.Value.obj nameRef)

/-- One step of `Compiler::resolve_local`'s downward walk
(src/compiler.rs:1119-1134): scan `locals[i-1], …, locals[0]` for the name;
`-1` when absent.  (The "own initializer" check only reports an error and
does not change the returned index.) -/
def resolve_local_from (locals : List Local) (name : String) : Nat → Int
| 0 => -1
| i + 1 =>
    match locals.get? i with
    | some l => if l.name = name then (i : Int) else resolve_local_from locals name i
    | none => resolve_local_from locals name i

/-- `Compiler::resolve_local` (src/compiler.rs:1119-1134). -/
def resolve_local (locals : List Local) (name : String) : Int :=
  resolve_local_from locals name locals.length

/-- `Compiler::named_variable` for the top-level script compiler
(src/compiler.rs:1056-1074).  The source computes `get_op`/`set_op` and
`arg` — `resolve_local`, then `resolve_upvalue` (which returns −1 at once
for the script compiler, whose `enclosing` is null, src/compiler.rs:1077-1079),
else `identifier_constant` — and then returns WITHOUT emitting any byte:
no `emit_byte`/`emit_bytes` call appears in the function body, so the chunk
code is returned unchanged (only the constant pool may have grown). -/
def named_variable (c : Chunk) (locals : List Local) (name : String)
    (nameRef : Nat) (canAssign : Bool) : Chunk :=
  let arg := resolve_local locals name
  if arg ≠ -1 then
    -- get_op := GetLocal, set_op := SetLocal; nothing is emitted
    c
  else
    -- resolve_upvalue = −1 (script compiler); get_op := GetGlobal,
    -- set_op := SetGlobal, arg := identifier_constant; nothing is emitted
    (identifier_constant c nameRef).2

/-- C4.  The claim says the get opcode that `named_variable` emits for the
identifier reads back the value bound by the preceding declaration.  But
`named_variable` emits no instruction at all, for every chunk, locals list
and name — the emitted code is unchanged — so the identifier expression in
`var x = v; x` compiles to no bytecode and nothing ever reads the binding
back.  The claim is right about the intent (the spec's §4.1 GET_GLOBAL
semantics) and the code is wrong. -/
theorem C4_named_variable_emits_nothing (c : Chunk) (locals : List Local)
    (name : String) (nameRef : Nat) (canAssign : Bool) :
    (named_variable c locals name nameRef canAssign).code = c.code := by
  unfold named_variable
  by_cases h : resolve_local locals name ≠ -1
  · simp [h]
  · simp [h, identifier_constant, make_constant, add_constant]
    by_cases h2 : c.constants.length > 255 <;> simp [h2]

end RsLox.Compile

namespace RsLox.PropVM

open RsLox

/-- Heap objects, as far as the property/call claims need them
(src/object.rs).  A closure carries its function's arity directly; the
native object carries its modelled return value (the one native, `clock`,
returns a number whose value is outside this model). -/
inductive HObj where
| hstring (s : String) : HObj
| closure (arity : Nat) : HObj
| native (result : Value) : HObj
| instObj (cls : Nat) (fields : Table) : HObj
| classObj (methods : Table) : HObj
| boundMethod (receiver : Value) (method : Nat) : HObj

/-- A call frame (src/vm.rs:51-55): the called closure and the stack index
of its slot 0. -/
structure Frame where
  closure : Nat
  slots : Nat
deriving DecidableEq, Repr

/-- The VM state the property/call opcodes act on: the value stack (index 0
is the bottom; `stack_top` is the length), the call frames (bottom first),
the heap, the allocation counter, the globals table and the cached `"init"`
string reference. -/
structure VMState where
  stack : List Value
  frames : List Frame
  heap : Nat → Option HObj
  nextRef : Nat
  globals : Table
  initString : Nat

/-- `VM::peek(distance)` (src/vm.rs:726-728). -/
def peekV (st : VMState) (d : Nat) : Option Value :=
  st.stack.get? (st.stack.length - 1 - d)

/-- `VM::push` (src/vm.rs:741-746). -/
def pushV (st : VMState) (v : Value) : VMState :=
  { st with stack := st.stack ++ [v] }

/-- `VM::pop` (src/vm.rs:748-753): only the top pointer moves. -/
def popV (st : VMState) : VMState :=
  { st with stack := st.stack.dropLast }

/-- `std::ptr::write` into a stack slot. -/
def stackSet (st : VMState) (i : Nat) (v : Value) : VMState :=
  { st with stack := st.stack.set i v }

/-- The `chars` of the `ObjString` behind a reference (for error messages). -/
def charsOf (st : VMState) (n : Nat) : String :=
  match st.heap n with
  | some (HObj.hstring s) => s
  | _ => ""

/-- The outcome of one dispatched operation: a next state, a runtime error
(`runtime_error` plus `InterpretResult::RuntimeError` / returning `false`),
or a Rust-level panic or undefined behaviour (`as_…!` on the wrong tag,
a dangling dereference, a stack underflow). -/
inductive Outcome where
| ok (st : VMState) : Outcome
| runtimeErr (msg : String) : Outcome
| panic (msg : String) : Outcome

/-- The error message `"Expected N arguments but got M."` (src/vm.rs:260). -/
def expectedArgsMsg (arity argc : Nat) : String :=
  "Expected " ++ toString arity ++ " arguments but got " ++ toString argc ++ "."

/-- `VM::call` (src/vm.rs:257-282): arity check, frame-overflow check, then
push a frame whose `slots` is `stack_top − argc − 1`. -/
def call (st : VMState) (closureRef : Nat) (argc : Nat) : Outcome :=
  match st.heap closureRef with
  | some (HObj.closure arity) =>
      if argc ≠ arity then
        Outcome.runtimeErr (expectedArgsMsg arity argc)
      else if st.frames.length = 64 then
        Outcome.runtimeErr "Stack overflow."
      else
        Outcome.ok { st with
          frames := st.frames ++ [⟨closureRef, st.stack.length - argc - 1⟩] }
  | _ => Outcome.panic "dangling closure"

/-- `VM::call_value` (src/vm.rs:645-694): dispatch on the callee. -/
def call_value (st : VMState) (callee : Value) (argc : Nat) : Outcome :=
  match callee with
  | Value.obj r =>
      match st.heap r with
      | some (HObj.boundMethod receiver m) =>
          call (stackSet st (st.stack.length - argc - 1) receiver) m argc
      | some (HObj.classObj methods) =>
          let inst := st.nextRef
          let st1 : VMState :=
            { st with
              heap := fun q => if q = inst then
                  some (HObj.instObj r (fun _ => none)) else st.heap q
              nextRef := st.nextRef + 1 }
          let st2 := stackSet st1 (st1.stack.length - argc - 1) (Value.obj inst)
          match table_get methods st.initString with
          | some (Value.obj ir) => call st2 ir argc
          | some _ => Outcome.panic "as_obj error"
          | none =>
              if argc ≠ 0 then
                Outcome.runtimeErr (expectedArgsMsg 0 argc)
              else Outcome.ok st2
      | some (HObj.closure _) => call st r argc
      | some (HObj.native result) =>
          Outcome.ok { st with
            stack := st.stack.take (st.stack.length - argc - 1) ++ [result] }
      | some _ => Outcome.runtimeErr "Can only call functions and classes."
      | none => Outcome.panic "dangling object"
  | _ => Outcome.runtimeErr "Can only call functions and classes."

/-- `VM::bind_method` (src/vm.rs:712-724): look the name up in the class's
method table; on a hit allocate a `BoundMethod` of the peeked receiver, pop
the receiver and push the bound method; on a miss raise
`"Undefined property 'X'."`. -/
def bind_method (st : VMState) (cls : Nat) (name : Nat) : Outcome :=
  match st.heap cls, peekV st 0 with
  | some (HObj.classObj methods), some receiver =>
      match table_get methods name with
      | some (Value.obj mr) =>
          let bound := st.nextRef
          let st1 : VMState :=
            { st with
              heap := fun q => if q = bound then
                  some (HObj.boundMethod receiver mr) else st.heap q
              nextRef := st.nextRef + 1 }
          Outcome.ok (pushV (popV st1) (Value.obj bound))
      | some _ => Outcome.panic "as_obj error"
      | none => Outcome.runtimeErr (undefinedPropertyMsg (charsOf st name))
  | _, _ => Outcome.panic "dangling class or stack underflow"

/-- The `OpCode::GetProperty` arm (src/vm.rs:378-394).  After the instance
check, the source looks the property name up in `self.globals` — the
GLOBAL-variable table, not the instance's `fields` — and only falls back to
`bind_method` on the class when the name is not a global. -/
def get_property (st : VMState) (name : Nat) : Outcome :=
  match peekV st 0 with
  | none => Outcome.panic "stack underflow"
  | some (Value.obj r) =>
      match st.heap r with
      | some (HObj.instObj cls _fields) =>
          match table_get st.globals name with
          | some value => Outcome.ok (pushV (popV st) value)
          | none => bind_method st cls name
      | _ => Outcome.runtimeErr "Only instances have properties."
  | some _ => Outcome.runtimeErr "Only instances have properties."

/-- `VM::invoke_from_class` (src/vm.rs:628-642). -/
def invoke_from_class (st : VMState) (cls : Nat) (name : Nat) (argc : Nat) :
    Outcome :=
  match st.heap cls with
  | some (HObj.classObj methods) =>
      match table_get methods name with
      | some (Value.obj mr) => call st mr argc
      | some _ => Outcome.panic "as_obj error"
      | none => Outcome.runtimeErr (undefinedPropertyMsg (charsOf st name))
  | _ => Outcome.panic "dangling class"

/-- `VM::invoke` (src/vm.rs:607-626): on an instance receiver, consult the
instance's `fields` first (the field-shadowing path: write the field value
into the callee slot and `call_value` it), else `invoke_from_class`. -/
def invoke (st : VMState) (name : Nat) (argc : Nat) : Outcome :=
  match peekV st argc with
  | none => Outcome.panic "stack underflow"
  | some (Value.obj r) =>
      match st.heap r with
      | some (HObj.instObj cls fields) =>
          match table_get fields name with
          | some value =>
              call_value (stackSet st (st.stack.length - argc - 1) value)
                value argc
          | none => invoke_from_class st cls name argc
      | _ => Outcome.runtimeErr "Only instances have methods."
  | some _ => Outcome.runtimeErr "Only instances have methods."

/-- The `OpCode::Call` arm (src/vm.rs:475-484): `call_value` on
`peek(argc)`. -/
def op_call (st : VMState) (argc : Nat) : Outcome :=
  match peekV st argc with
  | some callee => call_value st callee argc
  | none => Outcome.panic "stack underflow"

/-- `GET_PROPERTY name` followed by `CALL argc`, the sequence the spec calls
equivalent to `INVOKE name argc`.  (Stated for `argc = 0`, where no argument
pushes separate the two instructions.) -/
def get_property_then_call (st : VMState) (name : Nat) (argc : Nat) : Outcome :=
  match get_property st name with
  | Outcome.ok st1 => op_call st1 argc
  | r => r

/-- The fields table of the example instance: name 0 bound to the closure at
heap reference 3. -/
def exFields : Table := fun k => if k = 0 then some (Value.obj 3) else none

/-- The example heap: 0 = the string "f", 1 = a class with no methods,
2 = an instance of that class whose fields are `exFields`, 3 = a 0-ary
closure. -/
def exHeap : Nat → Option HObj := fun r =>
  if r = 0 then some (HObj.hstring "f")
  else if r = 1 then some (HObj.classObj (fun _ => none))
  else if r = 2 then some (HObj.instObj 1 exFields)
  else if r = 3 then some (HObj.closure 0)
  else none

/-- The example VM state: the instance on top of the stack, no frames, empty
globals. -/
def exSt : VMState :=
  { stack := [Value.obj 2]
    frames := []
    heap := exHeap
    nextRef := 4
    globals := fun _ => none
    initString := 99 }

/-- C1.  The claim says `GET_PROPERTY` on an instance first consults the
instance's own fields map.  In `exSt` the field named by string 0 ("f") IS
present in the instance's fields (bound to the closure 3), the class has no
method of that name and the globals are empty — yet executing the
`GetProperty` arm raises `"Undefined property 'f'."`, because the source
(src/vm.rs:387) looks the name up in `self.globals` instead of the
instance's `fields`; symmetrically, a global binding of the name is returned
as if it were a field.  `OpCode::SetProperty` (src/vm.rs:403) and
`VM::invoke` (src/vm.rs:616) both use the fields map, so the spec is the
intent and the globals lookup a slip. -/
theorem C1_get_property_reads_globals_not_fields :
    table_get exFields 0 = some (Value.obj 3)
  ∧ get_property exSt 0 = Outcome.runtimeErr (undefinedPropertyMsg "f")
  ∧ get_property { exSt with
        globals := fun k => if k = 0 then some (Value.number 99) else none } 0
      = Outcome.ok { exSt with
          stack := [Value.number 99]
          globals := fun k => if k = 0 then some (Value.number 99) else none } := by
  exact ⟨rfl, rfl, rfl⟩

/-- C5.  The claim says `INVOKE name argc` is observably equivalent to
`GET_PROPERTY name; CALL argc`, including the field-shadowing path.  On
`exSt` — the field "f" present in the instance's fields as a 0-ary closure,
absent from the globals and from the class's methods — `INVOKE f 0` takes
the field path, writes the field value into the callee slot and enters the
call (a new frame on the closure 3), while `GET_PROPERTY f; CALL 0` raises
`"Undefined property 'f'."`, because `GetProperty` consults the globals
instead of the fields (the C1 slip).  The two paths are therefore not
equivalent on the code; the claim describes the intent. -/
theorem C5_invoke_differs_from_get_property_call :
    invoke exSt 0 0
      = Outcome.ok { exSt with stack := [Value.obj 3], frames := [⟨3, 0⟩] }
  ∧ get_property_then_call exSt 0 0
      = Outcome.runtimeErr (undefinedPropertyMsg "f") := by
  exact ⟨rfl, rfl⟩

end RsLox.PropVM

namespace RsLox.GC

/-- The collector's marking state: the gray worklist (a `Vec`, pushed at the
back) and the set of references whose `is_marked` flag is set. -/
structure GCState where
  grayStack : List Nat
  marked : List Nat
deriving DecidableEq, Repr

/-- `mark_object` (src/memory.rs:264-284): null and already-marked objects
are skipped; otherwise set `is_marked` and push onto the gray stack. -/
def mark_object (st : GCState) (o : Option Nat) : GCState :=
  match o with
  | none => st
  | some r =>
      if r ∈ st.marked then st
      else { grayStack := st.grayStack ++ [r], marked := r :: st.marked }

/-- `mark_roots` (src/memory.rs:220-248), abstracted over the list of root
object pointers (stack slots below `stack_top`, live frames' closures, open
upvalues, globals keys and values, the compiler chain, the cached `"init"`
string): each is fed to `mark_object`. -/
def mark_roots (st : GCState) (roots : List (Option Nat)) : GCState :=
  roots.foldl mark_object st

/-- `trace_references` (src/memory.rs:157-163).  Each iteration of the
source loop reads `vm().gray_stack[vm().gray_stack.len()]` — an index one
past the end, which is out of bounds for every non-empty `Vec` and makes
the Rust program panic.  The `some` branch (pop and `blacken_object`) is
unreachable, so the blackening is not modelled further; the loop is
embedded with fuel. -/
def trace_references : Nat → GCState → Except String GCState
| 0, _ => Except.error "out of fuel"
| fuel + 1, st =>
    if st.grayStack.length > 0 then
      match st.grayStack.get? st.grayStack.length with
      | some _ => trace_references fuel st
      | none => Except.error "index out of bounds"
    else Except.ok st

/-- `collect_garbage` (src/memory.rs:50-76): mark the roots, then trace.
The later phases — `table_remove_white` on the strings table, `sweep`,
resetting `next_gc` — run only after the trace, which never returns. -/
def collect_garbage (fuel : Nat) (roots : List (Option Nat)) :
    Except String GCState :=
  trace_references fuel (mark_roots ⟨[], []⟩ roots)

/-- `mark_object` never shrinks the gray stack. -/
theorem mark_object_gray_ne_nil (st : GCState) (o : Option Nat)
    (h : st.grayStack ≠ []) : (mark_object st o).grayStack ≠ [] := by
  cases o with
  | none => exact h
  | some r =>
      by_cases hm : r ∈ st.marked
      · simpa [mark_object, hm] using h
      · simp [mark_object, hm]

/-- Folding `mark_object` over further roots keeps the gray stack
non-empty. -/
theorem mark_roots_gray_ne_nil (roots : List (Option Nat)) (st : GCState)
    (h : st.grayStack ≠ []) : (mark_roots st roots).grayStack ≠ [] := by
  induction roots generalizing st with
  | nil => exact h
  | cons o os ih =>
      exact ih (mark_object st o) (mark_object_gray_ne_nil st o h)

/-- A non-empty gray stack makes the trace loop read one index past the end
of the `Vec`. -/
theorem trace_references_panics (fuel : Nat) (st : GCState)
    (h : st.grayStack ≠ []) :
    trace_references (fuel + 1) st = Except.error "index out of bounds" := by
  have hlen : 0 < st.grayStack.length := List.length_pos.mpr h
  have hnone : st.grayStack.get? st.grayStack.length = none :=
    List.get?_eq_none.mpr (le_refl _)
  simp [trace_references, hlen, hnone]

/-- C8.  The claim describes the postcondition of a completed collection
(reachable objects alive, unreachable objects freed and unlinked, marks
cleared, weak string entries dropped).  But no collection with at least one
markable root ever completes: `mark_roots` leaves the first root on the gray
stack, and the trace loop indexes `gray_stack[gray_stack.len()]` — out of
bounds, a Rust panic — before any blackening, string-table sweep or sweep
can run.  After `init_vm` the root set always contains the cached `"init"`
string, so every triggered collection panics and nothing is ever freed; the
sweep the spec describes is the evident intent, so the code is wrong.
(Two further slips sit behind the panic: `blacken_object` marks the
closure's upvalue slot pointer, `closure.upvalues.add(i)`, instead of the
upvalue it points to, and `table_remove_white` marks every key and value it
visits, including the unmarked keys it just removed.) -/
theorem C8_collect_garbage_never_completes (fuel : Nat) (r : Nat)
    (roots : List (Option Nat)) :
    collect_garbage (fuel + 1) (some r :: roots)
      = Except.error "index out of bounds" := by
  have h0 : (mark_object (⟨[], []⟩ : GCState) (some r)).grayStack ≠ [] := by
    simp [mark_object]
  have h : (mark_roots (⟨[], []⟩ : GCState) (some r :: roots)).grayStack ≠ [] := by
    have : mark_roots (⟨[], []⟩ : GCState) (some r :: roots)
        = mark_roots (mark_object ⟨[], []⟩ (some r)) roots := rfl
    rw [this]
    exact mark_roots_gray_ne_nil roots _ h0
  exact trace_references_panics fuel _ h

end RsLox.GC

namespace RsLox.Uv

open RsLox

/-- An open upvalue on the VM's open-upvalue list (src/object.rs:234-239):
its identity (the heap reference) and its `location`, a stack index.  The
list link `next` is the list structure itself. -/
structure ObjUpvalue where
  ref : Nat
  location : Nat
deriving DecidableEq, Repr

/-- The descending-stack-address order the open-upvalue list is kept in:
the later element lives lower on the stack. -/
def descLoc (a b : ObjUpvalue) : Prop := b.location < a.location

instance : DecidableRel descLoc := fun a b => by
  unfold descLoc; infer_instance

/-- `VM::capture_upvalue` (src/vm.rs:582-605): walk the list while
`location > slot`; return an existing upvalue whose `location == slot`;
otherwise link a fresh upvalue (identity `fresh`) in right there.  Returns
the captured upvalue and the new list. -/
def capture_upvalue (l : List ObjUpvalue) (slot fresh : Nat) :
    ObjUpvalue × List ObjUpvalue :=
  match l with
  | [] => (⟨fresh, slot⟩, [⟨fresh, slot⟩])
  | u :: rest =>
      if slot < u.location then
        let r := capture_upvalue rest slot fresh
        (r.1, u :: r.2)
      else if u.location = slot then
        (u, u :: rest)
      else
        (⟨fresh, slot⟩, ⟨fresh, slot⟩ :: u :: rest)

/-- Sharing: on a strictly descending list, a stack slot that already has an
open upvalue gets that same upvalue back and the list is unchanged. -/
theorem capture_upvalue_shares (l : List ObjUpvalue) (slot fresh : Nat)
    (hs : l.Pairwise descLoc) :
    ∀ u ∈ l, u.location = slot → capture_upvalue l slot fresh = (u, l) := by
  induction l with
  | nil => intro u hu; exact absurd hu (List.not_mem_nil u)
  | cons v rest ih =>
      intro u hu hloc
      have hv := List.pairwise_cons.mp hs
      rcases List.mem_cons.mp hu with hveq | hurest
      · subst hveq
        have h1 : ¬ slot < u.location := by omega
        simp [capture_upvalue, h1, hloc]
      · have hlt : u.location < v.location := hv.1 u hurest
        have h1 : slot < v.location := by omega
        have := ih hv.2 u hurest hloc
        simp [capture_upvalue, h1, this]

/-- Fresh capture: on a strictly descending list with no upvalue at the
slot, the new upvalue is inserted immediately before the first element whose
location is below the slot, everything before it lying above the slot. -/
theorem capture_upvalue_inserts (l : List ObjUpvalue) (slot fresh : Nat)
    (hs : l.Pairwise descLoc) (habs : ∀ u ∈ l, u.location ≠ slot) :
    ∃ l1 l2, l = l1 ++ l2
      ∧ (∀ u ∈ l1, slot < u.location)
      ∧ (∀ u ∈ l2, u.location < slot)
      ∧ capture_upvalue l slot fresh
          = (⟨fresh, slot⟩, l1 ++ ⟨fresh, slot⟩ :: l2) := by
  induction l with
  | nil =>
      exact ⟨[], [], rfl, by simp, by simp, by simp [capture_upvalue]⟩
  | cons v rest ih =>
      have hv := List.pairwise_cons.mp hs
      by_cases h1 : slot < v.location
      · obtain ⟨l1, l2, hsplit, ha, hb, heq⟩ :=
          ih hv.2 (fun u hu => habs u (List.mem_cons_of_mem v hu))
        refine ⟨v :: l1, l2, by rw [List.cons_append, hsplit], ?_, hb, ?_⟩
        · intro u hu
          rcases List.mem_cons.mp hu with hveq | hul1
          · subst hveq; exact h1
          · exact ha u hul1
        · simp [capture_upvalue, h1, heq]
      · have hne : v.location ≠ slot := habs v (List.mem_cons_self v rest)
        have h2 : v.location < slot := by omega
        refine ⟨[], v :: rest, rfl, by simp, ?_, ?_⟩
        · intro u hu
          rcases List.mem_cons.mp hu with hveq | hurest
          · subst hveq; exact h2
          · have := hv.1 u hurest
            unfold descLoc at this
            omega
        · simp [capture_upvalue, h1, hne]

/-- The list produced by `capture_upvalue` is still strictly descending. -/
theorem capture_upvalue_sorted (l : List ObjUpvalue) (slot fresh : Nat)
    (hs : l.Pairwise descLoc) :
    (capture_upvalue l slot fresh).2.Pairwise descLoc := by
  by_cases hex : ∃ u ∈ l, u.location = slot
  · obtain ⟨u, hu, hloc⟩ := hex
    rw [capture_upvalue_shares l slot fresh hs u hu hloc]
    exact hs
  · push_neg at hex
    obtain ⟨l1, l2, hsplit, ha, hb, heq⟩ :=
      capture_upvalue_inserts l slot fresh hs hex
    rw [heq]
    have hl := hsplit ▸ hs
    rw [List.pairwise_append] at hl
    rw [List.pairwise_append]
    refine ⟨hl.1, ?_, ?_⟩
    · rw [List.pairwise_cons]
      exact ⟨fun b hb2 => hb b hb2, hl.2.1⟩
    · intro a hal1 b hbl
      rcases List.mem_cons.mp hbl with hbeq | hbl2
      · subst hbeq; exact ha a hal1
      · exact hl.2.2 a hal1 b hbl2

/-- Every element of the produced list is an old element or the fresh
upvalue: the walk creates at most the one new upvalue. -/
theorem capture_upvalue_mem (l : List ObjUpvalue) (slot fresh : Nat) :
    ∀ u ∈ (capture_upvalue l slot fresh).2,
      u ∈ l ∨ u = ⟨fresh, slot⟩ := by
  induction l with
  | nil =>
      intro u hu
      simp [capture_upvalue] at hu
      exact Or.inr hu
  | cons v rest ih =>
      intro u hu
      by_cases h1 : slot < v.location
      · simp only [capture_upvalue, if_pos h1] at hu
        rcases List.mem_cons.mp hu with hveq | hurec
        · exact Or.inl (hveq ▸ List.mem_cons_self v rest)
        · rcases ih u hurec with h | h
          · exact Or.inl (List.mem_cons_of_mem v h)
          · exact Or.inr h
      · by_cases h2 : v.location = slot
        · simp only [capture_upvalue, if_neg h1, if_pos h2] at hu
          exact Or.inl hu
        · simp only [capture_upvalue, if_neg h1, if_neg h2] at hu
          rcases List.mem_cons.mp hu with hne | hold
          · exact Or.inr hne
          · exact Or.inl hold

/-- C9.  `capture_upvalue` on a strictly descending open-upvalue list:
an existing open upvalue at the slot is returned with the list unchanged
(sharing, no new upvalue); otherwise the fresh upvalue is inserted
immediately before the first element whose location is below the slot; the
result is still strictly descending, and every element is an old one or the
fresh one (so all locations still point into the live stack whenever the
old ones and the captured slot do). -/
theorem C9_capture_upvalue_spec (l : List ObjUpvalue) (slot fresh : Nat)
    (hs : l.Pairwise descLoc) :
    (∀ u ∈ l, u.location = slot → capture_upvalue l slot fresh = (u, l))
  ∧ ((∀ u ∈ l, u.location ≠ slot) →
      ∃ l1 l2, l = l1 ++ l2
        ∧ (∀ u ∈ l1, slot < u.location)
        ∧ (∀ u ∈ l2, u.location < slot)
        ∧ capture_upvalue l slot fresh
            = (⟨fresh, slot⟩, l1 ++ ⟨fresh, slot⟩ :: l2))
  ∧ (capture_upvalue l slot fresh).2.Pairwise descLoc
  ∧ (∀ u ∈ (capture_upvalue l slot fresh).2, u ∈ l ∨ u = ⟨fresh, slot⟩)
  ∧ (∀ top, (∀ u ∈ l, u.location < top) → slot < top →
      ∀ u ∈ (capture_upvalue l slot fresh).2, u.location < top) := by
  refine ⟨capture_upvalue_shares l slot fresh hs,
    capture_upvalue_inserts l slot fresh hs,
    capture_upvalue_sorted l slot fresh hs,
    capture_upvalue_mem l slot fresh, ?_⟩
  intro top hall htop u hu
  rcases capture_upvalue_mem l slot fresh u hu with h | h
  · exact hall u h
  · rw [h]; exact htop

/-- Witness for C9 on a concrete list `[{ref 10, loc 5}, {ref 11, loc 3}]`:
capturing slot 3 shares the existing upvalue and leaves the list unchanged;
capturing slot 4 inserts the fresh upvalue between the two; sortedness is
preserved. -/
theorem C9_capture_upvalue_witness :
    ((([⟨10, 5⟩, ⟨11, 3⟩] : List ObjUpvalue)).Pairwise descLoc)
  ∧ capture_upvalue [⟨10, 5⟩, ⟨11, 3⟩] 3 12 = (⟨11, 3⟩, [⟨10, 5⟩, ⟨11, 3⟩])
  ∧ (capture_upvalue [⟨10, 5⟩, ⟨11, 3⟩] 4 12).2.Pairwise descLoc := by
  have hs : (([⟨10, 5⟩, ⟨11, 3⟩] : List ObjUpvalue)).Pairwise descLoc := by
    simp [descLoc]
  refine ⟨hs, ?_, (C9_capture_upvalue_spec [⟨10, 5⟩, ⟨11, 3⟩] 4 12 hs).2.2.1⟩
  exact (C9_capture_upvalue_spec [⟨10, 5⟩, ⟨11, 3⟩] 3 12 hs).1 ⟨11, 3⟩
    (by simp) rfl

/-- `VM::close_upvalues(last)` (src/vm.rs:570-579): pop list heads while
`location >= last`; each popped upvalue copies the stack value at its
location into `closed` and retargets `location` to that field.  Returns the
closed upvalues paired with their captured values, and the remaining open
list.  The loop dereferences the physical stack array, which a preceding
`pop` does not erase, so it reads the full stack contents. -/
def close_upvalues (stack : List Value) (l : List ObjUpvalue) (last : Nat) :
    List (ObjUpvalue × Value) × List ObjUpvalue :=
  match l with
  | [] => ([], [])
  | u :: rest =>
      if last ≤ u.location then
        let r := close_upvalues stack rest last
        ((u, stack.getD u.location Value.nil) :: r.1, r.2)
      else ([], u :: rest)

/-- After `close_upvalues` on a strictly descending list, every remaining
open upvalue lies strictly below `last`. -/
theorem close_upvalues_rest_lt (stack : List Value) (l : List ObjUpvalue)
    (last : Nat) (hs : l.Pairwise descLoc) :
    ∀ u ∈ (close_upvalues stack l last).2, u.location < last := by
  induction l with
  | nil => intro u hu; simp [close_upvalues] at hu
  | cons v rest ih =>
      have hv := List.pairwise_cons.mp hs
      intro u hu
      by_cases h1 : last ≤ v.location
      · simp only [close_upvalues, if_pos h1] at hu
        exact ih hv.2 u hu
      · simp only [close_upvalues, if_neg h1] at hu
        rcases List.mem_cons.mp hu with hveq | hurest
        · subst hveq; omega
        · have := hv.1 u hurest
          unfold descLoc at this
          omega

/-- On a strictly descending list, every open upvalue at or above `last` is
closed, capturing the stack value at its location. -/
theorem close_upvalues_closes_all (stack : List Value) (l : List ObjUpvalue)
    (last : Nat) (hs : l.Pairwise descLoc) :
    ∀ u ∈ l, last ≤ u.location →
      (u, stack.getD u.location Value.nil) ∈ (close_upvalues stack l last).1 := by
  induction l with
  | nil => intro u hu; exact absurd hu (List.not_mem_nil u)
  | cons v rest ih =>
      have hv := List.pairwise_cons.mp hs
      intro u hu hge
      by_cases h1 : last ≤ v.location
      · simp only [close_upvalues, if_pos h1]
        rcases List.mem_cons.mp hu with hveq | hurest
        · subst hveq; exact List.mem_cons_self _ _
        · exact List.mem_cons_of_mem _ (ih hv.2 u hurest hge)
      · rcases List.mem_cons.mp hu with hveq | hurest
        · subst hveq; omega
        · have := hv.1 u hurest
          unfold descLoc at this
          omega

/-- The state the `OpCode::Return` arm acts on: the value stack (bottom at
index 0, `stack_top` = length), the `slots` base of each live frame (bottom
frame first), the open-upvalue list, and a record of every upvalue closed so
far with its captured value (ghost, for stating what closing did). -/
structure RetState where
  stack : List Value
  frames : List Nat
  openUpvalues : List ObjUpvalue
  closedUpvalues : List (ObjUpvalue × Value)

/-- What executing `RETURN` leads to: the interpretation finishing with
`InterpretResult::Ok`, or execution resuming in the caller's frame. -/
inductive RetOutcome where
| finishedOk (st : RetState) : RetOutcome
| continueInCaller (st : RetState) : RetOutcome
| panic (msg : String) : RetOutcome

/-- The `OpCode::Return` arm (src/vm.rs:527-539): pop the result, close all
open upvalues at or above the returning frame's `slots`, drop the frame; if
it was the last frame pop the script closure and finish `Ok`; otherwise
reset `stack_top` to `slots`, push the result, and continue in the caller
(the new innermost frame). -/
def run_return (st : RetState) : RetOutcome :=
  match st.frames.getLast?, st.stack.getLast? with
  | some slots, some result =>
      let closed := close_upvalues st.stack st.openUpvalues slots
      let stack1 := st.stack.dropLast
      let frames1 := st.frames.dropLast
      if frames1.length = 0 then
        RetOutcome.finishedOk
          { stack := stack1.dropLast
            frames := frames1
            openUpvalues := closed.2
            closedUpvalues := st.closedUpvalues ++ closed.1 }
      else
        RetOutcome.continueInCaller
          { stack := stack1.take slots ++ [result]
            frames := frames1
            openUpvalues := closed.2
            closedUpvalues := st.closedUpvalues ++ closed.1 }
  | _, _ => RetOutcome.panic "no frame or empty stack"

/-- C6.  Executing `RETURN` with a strictly descending open-upvalue list:
the result is popped; every open upvalue with location at or above the
returning frame's `slots` is closed with the stack value at its location,
and afterwards no open upvalue has a location at or above `slots`; the frame
is dropped (frame count decremented); for the last frame the script closure
is popped too and interpretation finishes `Ok`; otherwise the stack is cut
back to `slots`, the result is pushed on top, and execution resumes in the
caller. -/
theorem C6_return_spec (st : RetState) (slots : Nat) (result : Value)
    (hf : st.frames.getLast? = some slots)
    (hr : st.stack.getLast? = some result)
    (hs : st.openUpvalues.Pairwise descLoc) :
    (∀ u ∈ (close_upvalues st.stack st.openUpvalues slots).2,
        u.location < slots)
  ∧ (∀ u ∈ st.openUpvalues, slots ≤ u.location →
        (u, st.stack.getD u.location Value.nil)
          ∈ (close_upvalues st.stack st.openUpvalues slots).1)
  ∧ (st.frames.length = 1 →
        run_return st = RetOutcome.finishedOk
          { stack := st.stack.dropLast.dropLast
            frames := []
            openUpvalues := (close_upvalues st.stack st.openUpvalues slots).2
            closedUpvalues := st.closedUpvalues
              ++ (close_upvalues st.stack st.openUpvalues slots).1 })
  ∧ (st.frames.length ≠ 1 →
        run_return st = RetOutcome.continueInCaller
          { stack := st.stack.dropLast.take slots ++ [result]
            frames := st.frames.dropLast
            openUpvalues := (close_upvalues st.stack st.openUpvalues slots).2
            closedUpvalues := st.closedUpvalues
              ++ (close_upvalues st.stack st.openUpvalues slots).1 }) := by
  have hnonnil : st.frames ≠ [] := by
    intro hnil
    rw [hnil] at hf
    simp at hf
  have hlen : st.frames.dropLast.length = st.frames.length - 1 :=
    List.length_dropLast st.frames
  have hpos : 0 < st.frames.length := List.length_pos.mpr hnonnil
  refine ⟨close_upvalues_rest_lt st.stack st.openUpvalues slots hs,
    close_upvalues_closes_all st.stack st.openUpvalues slots hs, ?_, ?_⟩
  · intro h1
    have hz : st.frames.dropLast.length = 0 := by omega
    have hnil : st.frames.dropLast = [] := List.length_eq_zero.mp hz
    simp only [run_return, hf, hr, hlen, hnil]
    simp [hz]
  · intro h1
    have hz : ¬ st.frames.dropLast.length = 0 := by omega
    simp only [run_return, hf, hr]
    simp [hz]
    omega

/-- A concrete state for the C6 witness: three values on the stack, two
frames (slots 0 and 1), three open upvalues at locations 2, 1 and 0. -/
def exRet : RetState :=
  { stack := [Value.obj 9, Value.number 7, Value.number 3]
    frames := [0, 1]
    openUpvalues := [⟨21, 2⟩, ⟨22, 1⟩, ⟨23, 0⟩]
    closedUpvalues := [] }

/-- Witness for C6 at `exRet`: returning from the frame with `slots = 1`
closes the upvalues at locations 2 and 1 with the stack values there, keeps
only the upvalue at location 0 open, and resumes in the caller with the
result `3` pushed at the frame base. -/
theorem C6_return_witness :
    exRet.frames.getLast? = some 1
  ∧ exRet.stack.getLast? = some (Value.number 3)
  ∧ run_return exRet = RetOutcome.continueInCaller
      { stack := [Value.obj 9, Value.number 3]
        frames := [0]
        openUpvalues := [⟨23, 0⟩]
        closedUpvalues := [(⟨21, 2⟩, Value.number 3), (⟨22, 1⟩, Value.number 7)] } := by
  have hs : exRet.openUpvalues.Pairwise descLoc := by
    simp [exRet, descLoc]
  have h := (C6_return_spec exRet 1 (Value.number 3) rfl rfl hs).2.2.2
    (by simp [exRet])
  exact ⟨rfl, rfl, by rw [h]; rfl⟩

end RsLox.Uv

namespace RsLox.Mem

/-- The VM's heap accounting (src/vm.rs:78-79): the cumulative allocation
counter and the GC threshold, plus a ghost `live_bytes` field (not in the
source) that tracks what a live-byte counter would hold, to contrast with
`bytes_allocated`. -/
structure MemState where
  bytes_allocated : Nat
  next_gc : Nat
  live_bytes : Nat
deriving DecidableEq, Repr

/-- `collect_garbage` (src/memory.rs:50-76) as triggered from `allocate`:
`mark_roots`, then `trace_references`; only if the trace returns does
control reach `table_remove_white`, `sweep` (which free objects but touch
no counter) and the `next_gc` update at src/memory.rs:63.  The trace aborts
with an out-of-bounds index whenever the root marking left anything on the
gray stack (the C8 slip), so the update is reached only when no root got
marked.  `roots` is the VM's root pointer list; the marking state is the GC
model's. -/
def collect_garbage (roots : List (Option Nat)) (fuel : Nat) (st : MemState) :
    Except String MemState :=
  match RsLox.GC.trace_references fuel (RsLox.GC.mark_roots ⟨[], []⟩ roots) with
  | Except.error e => Except.error e
  | Except.ok _ => Except.ok { st with next_gc := st.bytes_allocated * 2 }

/-- `allocate::<T>(count)` (src/memory.rs:27-42): add
`size_of::<T>() * count` to `bytes_allocated`, then run `collect_garbage`
when the counter exceeds `next_gc` — inheriting the collection's abort. -/
def allocate (roots : List (Option Nat)) (fuel : Nat) (st : MemState)
    (size_of count : Nat) : Except String MemState :=
  let st1 : MemState :=
    { st with
      bytes_allocated := st.bytes_allocated + size_of * count
      live_bytes := st.live_bytes + size_of * count }
  if st1.bytes_allocated > st1.next_gc then collect_garbage roots fuel st1
  else Except.ok st1

/-- `dealloc::<T>(ptr, count)` (src/memory.rs:44-48): frees the memory but
touches no counter — `bytes_allocated` is never subtracted from.  Only the
ghost live-byte field goes down. -/
def dealloc (st : MemState) (size_of count : Nat) : MemState :=
  { st with live_bytes := st.live_bytes - size_of * count }

/-- An allocation-layer event: an `allocate::<T>(count)` or a
`dealloc::<T>(ptr, count)`. -/
inductive MemEvent where
| alloc (size_of count : Nat) : MemEvent
| free (size_of count : Nat) : MemEvent
deriving DecidableEq, Repr

/-- Run one event; an allocation can abort in its triggered collection. -/
def memStep (roots : List (Option Nat)) (fuel : Nat) (st : MemState) :
    MemEvent → Except String MemState
| MemEvent.alloc s c => allocate roots fuel st s c
| MemEvent.free s c => Except.ok (dealloc st s c)

/-- Run an event trace, stopping at the first abort. -/
def runEvents (roots : List (Option Nat)) (fuel : Nat) :
    MemState → List MemEvent → Except String MemState
| st, [] => Except.ok st
| st, e :: es =>
    match memStep roots fuel st e with
    | Except.ok st1 => runEvents roots fuel st1 es
    | Except.error msg => Except.error msg

/-- The bytes the allocations of a trace add up to. -/
def allocTotal : List MemEvent → Nat
| [] => 0
| MemEvent.alloc s c :: es => s * c + allocTotal es
| MemEvent.free _ _ :: es => allocTotal es

/-- A collection that returns changed exactly `next_gc`, setting it to twice
the cumulative `bytes_allocated` (src/memory.rs:63). -/
theorem collect_garbage_ok (roots : List (Option Nat)) (fuel : Nat)
    (st3 st4 : MemState) (h : collect_garbage roots fuel st3 = Except.ok st4) :
    st4 = { st3 with next_gc := st3.bytes_allocated * 2 } := by
  unfold collect_garbage at h
  cases htr : RsLox.GC.trace_references fuel (RsLox.GC.mark_roots ⟨[], []⟩ roots) with
  | error e =>
      rw [htr] at h
      exact absurd h (by simp)
  | ok g =>
      rw [htr] at h
      simp at h
      exact h.symm

/-- A step that returns adds exactly its allocation size to
`bytes_allocated` (a triggered collection leaves the counter alone). -/
theorem memStep_bytes (roots : List (Option Nat)) (fuel : Nat)
    (st : MemState) (e : MemEvent) (st1 : MemState)
    (h : memStep roots fuel st e = Except.ok st1) :
    st1.bytes_allocated = st.bytes_allocated + allocTotal [e] := by
  cases e with
  | alloc s c =>
      simp only [memStep, allocate] at h
      by_cases hc : st.bytes_allocated + s * c > st.next_gc
      · simp only [hc, if_true] at h
        rw [collect_garbage_ok roots fuel _ st1 h]
        simp [allocTotal]
      · simp only [hc, if_false] at h
        simp at h
        rw [← h]
        simp [allocTotal]
  | free s c =>
      simp only [memStep] at h
      simp at h
      rw [← h]
      simp [dealloc, allocTotal]

/-- Over a trace that returns, `bytes_allocated` is the initial value plus
the total of the allocations; dealloc events contribute nothing. -/
theorem runEvents_bytes (roots : List (Option Nat)) (fuel : Nat)
    (evs : List MemEvent) (st st2 : MemState)
    (h : runEvents roots fuel st evs = Except.ok st2) :
    st2.bytes_allocated = st.bytes_allocated + allocTotal evs := by
  induction evs generalizing st with
  | nil =>
      simp [runEvents] at h
      rw [← h]
      simp [allocTotal]
  | cons e es ih =>
      simp only [runEvents] at h
      cases hstep : memStep roots fuel st e with
      | error msg =>
          rw [hstep] at h
          exact absurd h (by simp)
      | ok st1 =>
          rw [hstep] at h
          have h1 := memStep_bytes roots fuel st e st1 hstep
          have h2 := ih st1 h
          rw [h2, h1]
          cases e with
          | alloc s c => simp [allocTotal]; omega
          | free s c => simp [allocTotal]

/-- Running a split trace runs the first part, then (if it returned) the
second from where it left off. -/
theorem runEvents_append (roots : List (Option Nat)) (fuel : Nat)
    (pre post : List MemEvent) (st : MemState) :
    runEvents roots fuel st (pre ++ post)
      = match runEvents roots fuel st pre with
        | Except.ok st1 => runEvents roots fuel st1 post
        | Except.error e => Except.error e := by
  induction pre generalizing st with
  | nil => simp [runEvents]
  | cons e es ih =>
      simp only [List.cons_append, runEvents]
      cases memStep roots fuel st e with
      | ok st1 => exact ih st1
      | error msg => rfl

/-- C10 counterexample.  The claim says every collection sets `next_gc` to
twice the cumulative bytes ever allocated.  But a triggered collection with
a markable root — and after `init_vm` the roots always include the cached
`"init"` string — aborts in `trace_references` (the out-of-bounds index of
src/memory.rs:159) before the `next_gc` update at src/memory.rs:63 ever
runs: this allocation crosses the threshold and produces no post-state at
all, so no `next_gc` is set. -/
theorem C10_counterexample_collection_aborts :
    allocate [some 0] 1 ⟨0, 10, 0⟩ 4 3 = Except.error "index out of bounds" := by
  rfl

/-- C10 (amended).  Over any run of the allocation layer that returns:
`bytes_allocated` is the initial value plus the cumulative size of every
allocation (so dealloc — the sweep's frees included — never subtracts
anything, and the counter is monotonically non-decreasing across the run,
every intermediate state included); a collection that completes sets
`next_gc` to twice the cumulative `bytes_allocated` counter, not twice the
live bytes; and a triggered collection with any markable root aborts in
`trace_references` before that update, producing no post-state. -/
theorem C10_allocation_accounting (roots : List (Option Nat)) (fuel : Nat)
    (st st2 : MemState) (evs : List MemEvent)
    (h : runEvents roots fuel st evs = Except.ok st2) :
    (st2.bytes_allocated = st.bytes_allocated + allocTotal evs)
  ∧ (∀ pre post stMid, evs = pre ++ post →
        runEvents roots fuel st pre = Except.ok stMid →
        stMid.bytes_allocated ≤ st2.bytes_allocated)
  ∧ (∀ st3 s c, (dealloc st3 s c).bytes_allocated = st3.bytes_allocated
        ∧ (dealloc st3 s c).next_gc = st3.next_gc)
  ∧ (∀ st3 st4, collect_garbage roots fuel st3 = Except.ok st4 →
        st4 = { st3 with next_gc := st3.bytes_allocated * 2 })
  ∧ (∀ r rest f st3, collect_garbage (some r :: rest) (f + 1) st3
        = Except.error "index out of bounds") := by
  refine ⟨runEvents_bytes roots fuel evs st st2 h, ?_, ?_,
    collect_garbage_ok roots fuel, ?_⟩
  · intro pre post stMid hsplit hpre
    subst hsplit
    rw [runEvents_append, hpre] at h
    have := runEvents_bytes roots fuel post stMid st2 h
    omega
  · intro st3 s c
    exact ⟨rfl, rfl⟩
  · intro r rest f st3
    unfold collect_garbage
    have h0 : (RsLox.GC.mark_object (⟨[], []⟩ : RsLox.GC.GCState)
        (some r)).grayStack ≠ [] := by
      simp [RsLox.GC.mark_object]
    have hne : (RsLox.GC.mark_roots (⟨[], []⟩ : RsLox.GC.GCState)
        (some r :: rest)).grayStack ≠ [] := by
      have heq : RsLox.GC.mark_roots (⟨[], []⟩ : RsLox.GC.GCState) (some r :: rest)
          = RsLox.GC.mark_roots (RsLox.GC.mark_object ⟨[], []⟩ (some r)) rest := rfl
      rw [heq]
      exact RsLox.GC.mark_roots_gray_ne_nil rest _ h0
    rw [RsLox.GC.trace_references_panics f _ hne]

/-- Witness for C10 at concrete data.  With no markable root the run
`[alloc 4 3]` from `⟨0, 10, 0⟩` triggers a collection that completes and
leaves `⟨12, 24, 12⟩`: the counter equals the cumulative allocation total,
the empty prefix is below the final counter, a completed collection set
`next_gc = 12 * 2` (twice the cumulative counter), and the same collection
with a root aborts. -/
theorem C10_accounting_witness :
    runEvents [] 1 ⟨0, 10, 0⟩ [MemEvent.alloc 4 3] = Except.ok ⟨12, 24, 12⟩
  ∧ (⟨12, 24, 12⟩ : MemState).bytes_allocated
      = (⟨0, 10, 0⟩ : MemState).bytes_allocated + allocTotal [MemEvent.alloc 4 3]
  ∧ (⟨0, 10, 0⟩ : MemState).bytes_allocated
      ≤ (⟨12, 24, 12⟩ : MemState).bytes_allocated
  ∧ collect_garbage [] 1 ⟨12, 10, 12⟩ = Except.ok ⟨12, 24, 12⟩
  ∧ (⟨12, 24, 12⟩ : MemState)
      = { (⟨12, 10, 12⟩ : MemState) with next_gc := 12 * 2 }
  ∧ collect_garbage [some 0] 1 ⟨12, 10, 12⟩
      = Except.error "index out of bounds" := by
  have h : runEvents [] 1 (⟨0, 10, 0⟩ : MemState) [MemEvent.alloc 4 3]
      = Except.ok ⟨12, 24, 12⟩ := rfl
  have hcg : collect_garbage [] 1 (⟨12, 10, 12⟩ : MemState)
      = Except.ok ⟨12, 24, 12⟩ := rfl
  have hthm := C10_allocation_accounting [] 1 ⟨0, 10, 0⟩ ⟨12, 24, 12⟩
    [MemEvent.alloc 4 3] h
  refine ⟨h, hthm.1, ?_, hcg, ?_, ?_⟩
  · have := hthm.2.1 [] [MemEvent.alloc 4 3] ⟨0, 10, 0⟩ rfl rfl
    exact this
  · exact hthm.2.2.2.1 ⟨12, 10, 12⟩ ⟨12, 24, 12⟩ hcg
  · exact hthm.2.2.2.2 0 [] 0 ⟨12, 10, 12⟩

end RsLox.Mem
